import Mathlib

/-!
Verification of the credit-ledger and bounded work-queue subsystem of the
`coolify_shopify_dream_bee` repository.

The credit ledger (`src/credit_system.py`, class `CreditSystem`) keeps one
integer balance per user in a Redis store; an absent key reads as balance 0.
The WATCH/MULTI pipeline in `deduct_credit` and `transfer_credits` makes the
whole read-check-write atomic with respect to concurrent writers (on a
conflicting write the `WatchError` branch retries the whole block), so each
completed call linearizes as one atomic step on the store.  We embed the store
as a total function from user ids to integer balances and each operation as
its atomic effect.

The bounded queue (`src/utils/in_memory_queue.py`, class `InMemoryQueue`) is
embedded as a structure holding the buffered list, capacity, closed flag and
the two monotone counters; every method body is translated branch for branch.
-/

namespace DreamBee

/-- Redis credit store: user id to integer balance; an absent key is balance 0
(`int(current) if current else 0` in the source). -/
abbrev Store := Nat → Int

/-- Redis `INCRBY key amount`. -/
def incrby (s : Store) (u : Nat) (a : Int) : Store :=
  fun v => if v = u then s v + a else s v

/-- Redis `DECRBY key amount`. -/
def decrby (s : Store) (u : Nat) (a : Int) : Store :=
  fun v => if v = u then s v - a else s v

/-- Atomic effect of one completed `CreditSystem.deduct_credit(user_id, amount)`
call (`src/credit_system.py` lines 92-115): read the balance inside the watched
pipeline, return `False` leaving the store untouched when `current < amount`,
otherwise `DECRBY` and return `True`. -/
def deduct_credit (s : Store) (u : Nat) (a : Int) : Bool × Store :=
  if s u < a then (false, s) else (true, decrby s u a)

/-- Happy-path `CreditSystem.get_credits` (store reachable): read the key,
absent key is 0.  The retry wrapper and its failure path are modelled
separately by `get_credits_with_retry`. -/
def get_credits (s : Store) (u : Nat) : Int := s u

/-- Atomic effect of one completed `CreditSystem.transfer_credits` call
(`src/credit_system.py` lines 214-239): inside the watched pipeline, fail
leaving the store untouched when `current < amount`, otherwise `DECRBY` the
sender and `INCRBY` the recipient in one MULTI transaction. -/
def transfer_credits (s : Store) (f t : Nat) (a : Int) : Bool × Store :=
  if s f < a then (false, s) else (true, incrby (decrby s f a) t a)

/-- A maximal interleaving of concurrently issued `deduct_credit` calls against
one user: since each call's read-check-write is atomic (WATCH retry), any
interleaving linearizes to some sequential order of the calls; `runDeducts`
executes that order and counts the successes. -/
def runDeducts (s : Store) (u : Nat) : List Int → Nat × Store
  | [] => (0, s)
  | a :: rest =>
    let step := deduct_credit s u a
    let r := runDeducts step.2 u rest
    ((if step.1 then 1 else 0) + r.1, r.2)

/-- Balance bookkeeping for a run of equal-amount deductions: with a positive
amount and a nonnegative starting balance, successes times amount plus the
final balance equals the starting balance, and the balance stays
nonnegative. -/
theorem runDeducts_replicate_eq (u : Nat) (a : Int) :
    ∀ (n : Nat) (s : Store), 0 ≤ s u →
      ((runDeducts s u (List.replicate n a)).1 : Int) * a
          + (runDeducts s u (List.replicate n a)).2 u = s u
        ∧ 0 ≤ (runDeducts s u (List.replicate n a)).2 u := by
  intro n
  induction n with
  | zero => intro s hs; simp [runDeducts, hs]
  | succ m ih =>
    intro s hs
    by_cases hlt : s u < a
    · have := ih s hs
      simp only [List.replicate_succ, runDeducts, deduct_credit, if_pos hlt]
      constructor
      · simpa using this.1
      · simpa using this.2
    · have hdec : (decrby s u a) u = s u - a := by simp [decrby]
      have hge : 0 ≤ (decrby s u a) u := by
        rw [hdec]; omega
      have := ih (decrby s u a) hge
      simp only [List.replicate_succ, runDeducts, deduct_credit, if_neg hlt]
      constructor
      · have h1 := this.1
        rw [hdec] at h1
        push_cast
        linarith
      · simpa using this.2

/-- C1: for every starting balance `B = s u ≥ 0` and every linearization of
`n` concurrently issued `deduct_credit(u, a)` calls with `a > 0`, the number
of calls returning success never exceeds `⌊B / a⌋` and the balance is never
negative afterwards; in particular two concurrent `deduct(1)` calls against a
balance of 1 yield exactly one success and one failure. -/
theorem credit_deduct_concurrent_bound (s : Store) (u : Nat) (a : Int) (n : Nat)
    (hB : 0 ≤ s u) (ha : 0 < a) :
    ((runDeducts s u (List.replicate n a)).1 : Int) ≤ s u / a
      ∧ 0 ≤ (runDeducts s u (List.replicate n a)).2 u
      ∧ (runDeducts (fun _ => (1 : Int)) 0 [1, 1]).1 = 1 := by
  obtain ⟨h1, h2⟩ := runDeducts_replicate_eq u a n s hB
  refine ⟨?_, h2, by decide⟩
  rw [Int.le_ediv_iff_mul_le ha]
  linarith

/-- Witness for C1 at the concrete input `B = 5`, `a = 2`, three concurrent
calls: at most `⌊5/2⌋ = 2` successes and a nonnegative final balance. -/
theorem credit_deduct_concurrent_bound_witness :
    ((runDeducts (fun _ => (5 : Int)) 3 (List.replicate 3 2)).1 : Int) ≤ 5 / 2
      ∧ 0 ≤ (runDeducts (fun _ => (5 : Int)) 3 (List.replicate 3 2)).2 3
      ∧ (runDeducts (fun _ => (1 : Int)) 0 [1, 1]).1 = 1 :=
  credit_deduct_concurrent_bound (fun _ => 5) 3 2 3 (by decide) (by decide)

/-- Error signals of `InMemoryQueue` (`src/utils/in_memory_queue.py`):
`QueueFullError` and `QueueEmptyError`. -/
inductive QueueError where
  | full
  | empty
deriving DecidableEq, Repr

/-- State of one `InMemoryQueue` instance: the buffered deque content, the
`maxlen` bound, the `_closed` flag and the two monotone counters.  All
methods run under the instance lock, so each is one atomic step. -/
structure InMemoryQueue (T : Type) where
  queue : List T
  maxSize : Nat
  closed : Bool
  totalEnqueued : Nat
  totalDequeued : Nat
deriving DecidableEq, Repr

/-- A freshly constructed queue (`__init__`): empty deque, open, zero
counters. -/
def InMemoryQueue.fresh (T : Type) (maxSize : Nat) : InMemoryQueue T :=
  ⟨[], maxSize, false, 0, 0⟩

/-- `InMemoryQueue.enqueue` (lines 72-87): raise `QueueFullError` when closed,
raise `QueueFullError` when `len(queue) >= max_size`, otherwise append and
increment `total_enqueued`. -/
def InMemoryQueue.enqueue (q : InMemoryQueue T) (item : T) :
    Except QueueError (InMemoryQueue T) :=
  if q.closed then .error .full
  else if q.maxSize ≤ q.queue.length then .error .full
  else .ok { q with queue := q.queue ++ [item], totalEnqueued := q.totalEnqueued + 1 }

/-- `InMemoryQueue.dequeue` (lines 89-105): raise `QueueEmptyError` when
closed and empty, raise `QueueEmptyError` when empty, otherwise pop the head
and increment `total_dequeued`. -/
def InMemoryQueue.dequeue (q : InMemoryQueue T) :
    Except QueueError (T × InMemoryQueue T) :=
  if q.closed = true ∧ q.queue.length = 0 then .error .empty
  else
    match q.queue with
    | [] => .error .empty
    | x :: rest => .ok (x, { q with queue := rest, totalDequeued := q.totalDequeued + 1 })

/-- `InMemoryQueue.peek` (lines 107-110): head of the buffer, or none. -/
def InMemoryQueue.peek (q : InMemoryQueue T) : Option T := q.queue.head?

/-- `InMemoryQueue.clear` (lines 112-116): empty the buffer; the counters are
not touched. -/
def InMemoryQueue.clear (q : InMemoryQueue T) : InMemoryQueue T :=
  { q with queue := [] }

/-- `InMemoryQueue.close` (lines 118-122): set the `_closed` flag. -/
def InMemoryQueue.close (q : InMemoryQueue T) : InMemoryQueue T :=
  { q with closed := true }

/-- Snapshot returned by `InMemoryQueue.get_statistics` (lines 149-162),
without the `name` and `last_operation_time` bookkeeping fields. -/
structure QueueStatistics where
  current_size : Nat
  max_size : Nat
  total_enqueued : Nat
  total_dequeued : Nat
  is_full : Bool
  is_empty : Bool
  is_closed : Bool
deriving DecidableEq, Repr

/-- `InMemoryQueue.get_statistics`. -/
def InMemoryQueue.get_statistics (q : InMemoryQueue T) : QueueStatistics :=
  { current_size := q.queue.length
    max_size := q.maxSize
    total_enqueued := q.totalEnqueued
    total_dequeued := q.totalDequeued
    is_full := q.queue.length == q.maxSize
    is_empty := q.queue.length == 0
    is_closed := q.closed }

/-- One caller-visible operation on a queue instance. -/
inductive QueueOp (T : Type) where
  | enq (item : T)
  | deq
  | peekOp
  | closeOp
  | clearOp
deriving DecidableEq, Repr

/-- Outcome of running a sequence of operations: the final queue state, the
items whose `enqueue` succeeded (in call order) and the items returned by
successful `dequeue` calls (in call order).  Failed calls raise and leave the
state untouched. -/
structure RunResult (T : Type) where
  q : InMemoryQueue T
  enqOk : List T
  deqOk : List T
deriving DecidableEq, Repr

/-- Run a sequence of queue operations, collecting the successfully enqueued
and dequeued items. -/
def runOps (q : InMemoryQueue T) : List (QueueOp T) → RunResult T
  | [] => ⟨q, [], []⟩
  | op :: rest =>
    match op with
    | .enq x =>
      match q.enqueue x with
      | .ok q' =>
        let r := runOps q' rest
        ⟨r.q, x :: r.enqOk, r.deqOk⟩
      | .error _ => runOps q rest
    | .deq =>
      match q.dequeue with
      | .ok (x, q') =>
        let r := runOps q' rest
        ⟨r.q, r.enqOk, x :: r.deqOk⟩
      | .error _ => runOps q rest
    | .peekOp => runOps q rest
    | .closeOp => runOps q.close rest
    | .clearOp => runOps q.clear rest

/-- Enqueue a list of items in order, stopping at the first failure
(the N-fold `enqueue` scenario of the spec). -/
def enqueueAll (q : InMemoryQueue T) : List T → Except QueueError (InMemoryQueue T)
  | [] => .ok q
  | x :: xs =>
    match q.enqueue x with
    | .ok q' => enqueueAll q' xs
    | .error e => .error e

/-- Dequeue `n` items in order, stopping at the first failure. -/
def dequeueMany (q : InMemoryQueue T) : Nat → Except QueueError (List T × InMemoryQueue T)
  | 0 => .ok ([], q)
  | n + 1 =>
    match q.dequeue with
    | .ok (x, q') =>
      match dequeueMany q' n with
      | .ok (xs, q'') => .ok (x :: xs, q'')
      | .error e => .error e
    | .error e => .error e

/-- Enqueueing a list that fits in the remaining capacity of an open queue
succeeds and appends the items in order. -/
theorem enqueueAll_ok {T : Type} :
    ∀ (xs : List T) (q : InMemoryQueue T), q.closed = false →
      q.queue.length + xs.length ≤ q.maxSize →
      enqueueAll q xs =
        .ok { q with queue := q.queue ++ xs,
                     totalEnqueued := q.totalEnqueued + xs.length } := by
  intro xs
  induction xs with
  | nil => intro q hc hn; simp [enqueueAll]
  | cons x xs ih =>
    intro q hc hn
    have hlen : ¬ q.maxSize ≤ q.queue.length := by
      simp only [List.length_cons] at hn; omega
    simp only [enqueueAll, InMemoryQueue.enqueue, hc, Bool.false_eq_true, if_false,
      if_neg hlen]
    rw [ih _ (by simp [hc]) (by simp only [List.length_append, List.length_cons,
      List.length_nil] at hn ⊢; omega)]
    simp only [List.append_assoc, List.singleton_append, Except.ok.injEq,
      InMemoryQueue.mk.injEq, List.length_cons, true_and, and_true]
    omega

/-- Dequeueing `n ≤ len` items from a queue (open or closed) succeeds and
returns the first `n` buffered items in order. -/
theorem dequeueMany_ok {T : Type} :
    ∀ (n : Nat) (q : InMemoryQueue T), n ≤ q.queue.length →
      dequeueMany q n =
        .ok (q.queue.take n,
          { q with queue := q.queue.drop n,
                   totalDequeued := q.totalDequeued + n }) := by
  intro n
  induction n with
  | zero => intro q hn; simp [dequeueMany]
  | succ m ih =>
    intro q hn
    match hq : q.queue with
    | [] => rw [hq] at hn; simp at hn
    | x :: rest =>
      have hm : m ≤ rest.length := by
        rw [hq] at hn; simpa using hn
      simp only [dequeueMany, InMemoryQueue.dequeue, hq, List.length_cons,
        Nat.succ_ne_zero, and_false, if_false]
      rw [ih { q with queue := rest, totalDequeued := q.totalDequeued + 1 }
        (by simpa using hm)]
      simp only [List.take_succ_cons, List.drop_succ_cons, Except.ok.injEq,
        Prod.mk.injEq, InMemoryQueue.mk.injEq, true_and, and_true]
      omega

/-- C4: starting from an empty queue of capacity `N`, the first `N` enqueues
all succeed, the `(N+1)`-th raises `QueueFull`; then `N` dequeues succeed and
a further dequeue raises `QueueEmpty`.  Moreover, on any state whose buffer
respects the capacity, `enqueue` fails with `QueueFull` exactly when the
length equals `N` or the queue is closed, and `dequeue` fails with
`QueueEmpty` exactly when the buffer is empty. -/
theorem queue_capacity_bounds {T : Type} (N : Nat) (q : InMemoryQueue T) (item : T)
    (hq : q.queue.length ≤ q.maxSize) :
    enqueueAll (InMemoryQueue.fresh Unit N) (List.replicate N ()) =
        .ok ⟨List.replicate N (), N, false, N, 0⟩
      ∧ InMemoryQueue.enqueue ⟨List.replicate N (), N, false, N, 0⟩ () = .error .full
      ∧ dequeueMany (⟨List.replicate N (), N, false, N, 0⟩ : InMemoryQueue Unit) N =
          .ok (List.replicate N (), ⟨[], N, false, N, N⟩)
      ∧ InMemoryQueue.dequeue (⟨[], N, false, N, N⟩ : InMemoryQueue Unit) = .error .empty
      ∧ (q.enqueue item = .error .full ↔ (q.closed = true ∨ q.queue.length = q.maxSize))
      ∧ (q.dequeue = .error .empty ↔ q.queue.length = 0) := by
  refine ⟨?_, ?_, ?_, ?_, ?_, ?_⟩
  · rw [enqueueAll_ok (List.replicate N ()) (InMemoryQueue.fresh Unit N) rfl
      (by simp [InMemoryQueue.fresh])]
    simp [InMemoryQueue.fresh]
  · simp [InMemoryQueue.enqueue]
  · rw [dequeueMany_ok N ⟨List.replicate N (), N, false, N, 0⟩ (by simp)]
    simp
  · simp [InMemoryQueue.dequeue]
  · unfold InMemoryQueue.enqueue
    split_ifs with h1 h2
    · simp [h1]
    · constructor
      · intro _; right; omega
      · intro _; rfl
    · constructor
      · intro h; cases h
      · intro h
        rcases h with h | h
        · exact absurd h (by simpa using h1)
        · omega
  · unfold InMemoryQueue.dequeue
    split_ifs with h1
    · simp [h1.2]
    · match hbuf : q.queue with
      | [] => simp [hbuf]
      | x :: rest => simp [hbuf]

/-- Witness for C4 at `N = 2` and a concrete open state with one buffered
item. -/
theorem queue_capacity_bounds_witness :
    enqueueAll (InMemoryQueue.fresh Unit 2) (List.replicate 2 ()) =
        .ok ⟨List.replicate 2 (), 2, false, 2, 0⟩
      ∧ InMemoryQueue.enqueue ⟨List.replicate 2 (), 2, false, 2, 0⟩ () = .error .full
      ∧ dequeueMany (⟨List.replicate 2 (), 2, false, 2, 0⟩ : InMemoryQueue Unit) 2 =
          .ok (List.replicate 2 (), ⟨[], 2, false, 2, 2⟩)
      ∧ InMemoryQueue.dequeue (⟨[], 2, false, 2, 2⟩ : InMemoryQueue Unit) = .error .empty
      ∧ (InMemoryQueue.enqueue (⟨[7], 3, false, 1, 0⟩ : InMemoryQueue Nat) 9 = .error .full
          ↔ ((false : Bool) = true ∨ (([7] : List Nat).length = 3)))
      ∧ (InMemoryQueue.dequeue (⟨[7], 3, false, 1, 0⟩ : InMemoryQueue Nat) = .error .empty
          ↔ ([7] : List Nat).length = 0) :=
  queue_capacity_bounds 2 ⟨[7], 3, false, 1, 0⟩ 9 (by decide)

/-- Conservation of items across any run without `clear`: the successfully
dequeued items followed by the remaining buffer equal the initial buffer
followed by the successfully enqueued items. -/
theorem runOps_buffer_eq {T : Type} :
    ∀ (ops : List (QueueOp T)) (q : InMemoryQueue T), QueueOp.clearOp ∉ ops →
      (runOps q ops).deqOk ++ (runOps q ops).q.queue
        = q.queue ++ (runOps q ops).enqOk := by
  intro ops
  induction ops with
  | nil => intro q _; simp [runOps]
  | cons op rest ih =>
    intro q h
    rw [List.mem_cons] at h
    push_neg at h
    obtain ⟨hop, hrest⟩ := h
    cases op with
    | enq x =>
      cases he : q.enqueue x with
      | error e => simpa [runOps, he] using ih q hrest
      | ok q' =>
        have hq' : q'.queue = q.queue ++ [x] := by
          simp only [InMemoryQueue.enqueue] at he
          split_ifs at he
          simp only [Except.ok.injEq] at he
          subst he
          rfl
        simp only [runOps, he]
        have := ih q' hrest
        rw [hq'] at this
        rw [this]
        simp
    | deq =>
      cases he : q.dequeue with
      | error e => simpa [runOps, he] using ih q hrest
      | ok p =>
        obtain ⟨x, q'⟩ := p
        match hbuf : q.queue with
        | [] => simp [InMemoryQueue.dequeue, hbuf, ite_self] at he
        | y :: tl =>
          have hx : y = x ∧ q'.queue = tl := by
            simp only [InMemoryQueue.dequeue, hbuf] at he
            simp only [List.length_cons, Nat.succ_ne_zero, and_false, if_false,
              Except.ok.injEq, Prod.mk.injEq] at he
            exact ⟨he.1, by rw [← he.2]⟩
          simp only [runOps, he]
          have := ih q' hrest
          rw [hx.2] at this
          simp only [List.cons_append, this, hbuf, hx.1]
    | peekOp => simpa [runOps] using ih q hrest
    | closeOp =>
      have := ih q.close hrest
      simpa [runOps, InMemoryQueue.close] using this
    | clearOp => exact absurd rfl hop

/-- C5: for every sequence of interleaved queue operations not containing
`clear`, starting from a fresh queue, the successfully dequeued items are an
initial segment of the successfully enqueued items in order (pure FIFO): the
`k`-th successful dequeue returns the `k`-th successfully enqueued item. -/
theorem queue_fifo_order {T : Type} (N : Nat) (ops : List (QueueOp T))
    (h : QueueOp.clearOp ∉ ops) :
    (runOps (InMemoryQueue.fresh T N) ops).deqOk
        ++ (runOps (InMemoryQueue.fresh T N) ops).q.queue
      = (runOps (InMemoryQueue.fresh T N) ops).enqOk
      ∧ ∀ k, k < (runOps (InMemoryQueue.fresh T N) ops).deqOk.length →
          (runOps (InMemoryQueue.fresh T N) ops).deqOk[k]?
            = (runOps (InMemoryQueue.fresh T N) ops).enqOk[k]? := by
  have heq := runOps_buffer_eq ops (InMemoryQueue.fresh T N) h
  rw [show (InMemoryQueue.fresh T N).queue = [] from rfl, List.nil_append] at heq
  refine ⟨heq, ?_⟩
  intro k hk
  rw [← heq, List.getElem?_append, if_pos hk]

/-- Witness for C5: enqueue 4 and 5, dequeue twice; the dequeues return 4 then
5. -/
theorem queue_fifo_order_witness :
    (runOps (InMemoryQueue.fresh Nat 2) [.enq 4, .enq 5, .deq, .deq]).deqOk
        ++ (runOps (InMemoryQueue.fresh Nat 2) [.enq 4, .enq 5, .deq, .deq]).q.queue
      = (runOps (InMemoryQueue.fresh Nat 2) [.enq 4, .enq 5, .deq, .deq]).enqOk
      ∧ ∀ k, k < (runOps (InMemoryQueue.fresh Nat 2)
            [.enq 4, .enq 5, .deq, .deq]).deqOk.length →
          (runOps (InMemoryQueue.fresh Nat 2) [.enq 4, .enq 5, .deq, .deq]).deqOk[k]?
            = (runOps (InMemoryQueue.fresh Nat 2) [.enq 4, .enq 5, .deq, .deq]).enqOk[k]? :=
  queue_fifo_order 2 [.enq 4, .enq 5, .deq, .deq] (by decide)

/-- A successful `dequeue` pops the head and preserves the closed flag. -/
theorem dequeue_ok_fields {T : Type} {q q' : InMemoryQueue T} {x : T}
    (he : q.dequeue = .ok (x, q')) :
    q.queue = x :: q'.queue ∧ q'.closed = q.closed := by
  cases hbuf : q.queue with
  | nil => simp [InMemoryQueue.dequeue, hbuf, ite_self] at he
  | cons y tl =>
    simp only [InMemoryQueue.dequeue, hbuf, List.length_cons, Nat.succ_ne_zero,
      and_false, if_false, Except.ok.injEq, Prod.mk.injEq] at he
    obtain ⟨h1, h2⟩ := he
    subst h2
    exact ⟨by simp [hbuf, h1], rfl⟩

/-- Close is permanent: from a closed queue, no operation reopens it and no
enqueue ever succeeds. -/
theorem runOps_closed_no_enq {T : Type} :
    ∀ (ops : List (QueueOp T)) (q : InMemoryQueue T), q.closed = true →
      (runOps q ops).q.closed = true ∧ (runOps q ops).enqOk = [] := by
  intro ops
  induction ops with
  | nil => intro q hc; simpa [runOps] using hc
  | cons op rest ih =>
    intro q hc
    cases op with
    | enq x => simpa [runOps, InMemoryQueue.enqueue, hc] using ih q hc
    | deq =>
      cases he : q.dequeue with
      | error e => simpa [runOps, he] using ih q hc
      | ok p =>
        obtain ⟨x, q'⟩ := p
        have hc' : q'.closed = true := by rw [(dequeue_ok_fields he).2, hc]
        simpa [runOps, he] using ih q' hc'
    | peekOp => simpa [runOps] using ih q hc
    | closeOp => simpa [runOps] using ih q.close rfl
    | clearOp => simpa [runOps, InMemoryQueue.clear] using ih q.clear (by simpa [InMemoryQueue.clear] using hc)

/-- C6: once a queue is closed, every subsequent enqueue fails with
`QueueFull` (across any further operation sequence), while dequeue drains the
items buffered before closing in FIFO order, and only once the buffer is
empty does dequeue fail with `QueueEmpty`. -/
theorem queue_close_semantics {T : Type} (q : InMemoryQueue T) (hc : q.closed = true)
    (ops : List (QueueOp T)) (item : T) :
    q.enqueue item = .error .full
      ∧ (runOps q ops).enqOk = []
      ∧ (runOps q ops).q.closed = true
      ∧ dequeueMany q q.queue.length =
          .ok (q.queue,
            ({ q with queue := [], totalDequeued := q.totalDequeued + q.queue.length }
              : InMemoryQueue T))
      ∧ InMemoryQueue.dequeue
          ({ q with queue := [], totalDequeued := q.totalDequeued + q.queue.length }
            : InMemoryQueue T)
          = .error .empty := by
  refine ⟨?_, (runOps_closed_no_enq ops q hc).2, (runOps_closed_no_enq ops q hc).1, ?_, ?_⟩
  · simp [InMemoryQueue.enqueue, hc]
  · rw [dequeueMany_ok q.queue.length q le_rfl]
    simp
  · simp [InMemoryQueue.dequeue, hc]

/-- Witness for C6: a closed queue buffering `[3, 4]`; a later enqueue fails,
both buffered items drain in order, then dequeue fails. -/
theorem queue_close_semantics_witness :
    InMemoryQueue.enqueue (⟨[3, 4], 5, true, 2, 0⟩ : InMemoryQueue Nat) 8 = .error .full
      ∧ (runOps (⟨[3, 4], 5, true, 2, 0⟩ : InMemoryQueue Nat) [.enq 9, .deq]).enqOk = []
      ∧ (runOps (⟨[3, 4], 5, true, 2, 0⟩ : InMemoryQueue Nat) [.enq 9, .deq]).q.closed = true
      ∧ dequeueMany (⟨[3, 4], 5, true, 2, 0⟩ : InMemoryQueue Nat)
            ([3, 4] : List Nat).length =
          .ok ([3, 4], (⟨[], 5, true, 2, 2⟩ : InMemoryQueue Nat))
      ∧ InMemoryQueue.dequeue (⟨[], 5, true, 2, 2⟩ : InMemoryQueue Nat)
          = .error .empty :=
  queue_close_semantics ⟨[3, 4], 5, true, 2, 0⟩ rfl [.enq 9, .deq] 8

/-- A successful `enqueue` appends the item, bumps `total_enqueued`, leaves
the other fields alone, and can only happen strictly below capacity. -/
theorem enqueue_ok_fields {T : Type} {q q' : InMemoryQueue T} {x : T}
    (he : q.enqueue x = .ok q') :
    q'.queue = q.queue ++ [x] ∧ q'.maxSize = q.maxSize ∧ q'.closed = q.closed
      ∧ q'.totalEnqueued = q.totalEnqueued + 1 ∧ q'.totalDequeued = q.totalDequeued
      ∧ q.queue.length < q.maxSize := by
  simp only [InMemoryQueue.enqueue] at he
  split_ifs at he with h1 h2
  simp only [Except.ok.injEq] at he
  subst he
  exact ⟨rfl, rfl, rfl, rfl, rfl, by omega⟩

/-- A successful `dequeue` pops the head, bumps `total_dequeued` and leaves
the other fields alone. -/
theorem dequeue_ok_counters {T : Type} {q q' : InMemoryQueue T} {x : T}
    (he : q.dequeue = .ok (x, q')) :
    q.queue = x :: q'.queue ∧ q'.maxSize = q.maxSize ∧ q'.closed = q.closed
      ∧ q'.totalEnqueued = q.totalEnqueued ∧ q'.totalDequeued = q.totalDequeued + 1 := by
  cases hbuf : q.queue with
  | nil => simp [InMemoryQueue.dequeue, hbuf, ite_self] at he
  | cons y tl =>
    simp only [InMemoryQueue.dequeue, hbuf, List.length_cons, Nat.succ_ne_zero,
      and_false, if_false, Except.ok.injEq, Prod.mk.injEq] at he
    obtain ⟨h1, h2⟩ := he
    subst h2
    exact ⟨by simp [hbuf, h1], rfl, rfl, rfl, rfl⟩

/-- The counter identity `len + total_dequeued = total_enqueued` and the
capacity bound are preserved by every operation except `clear`. -/
theorem runOps_stats_invariant {T : Type} :
    ∀ (ops : List (QueueOp T)) (q : InMemoryQueue T), QueueOp.clearOp ∉ ops →
      q.queue.length + q.totalDequeued = q.totalEnqueued →
      q.queue.length ≤ q.maxSize →
      (runOps q ops).q.queue.length + (runOps q ops).q.totalDequeued
          = (runOps q ops).q.totalEnqueued
        ∧ (runOps q ops).q.queue.length ≤ (runOps q ops).q.maxSize := by
  intro ops
  induction ops with
  | nil => intro q _ h1 h2; exact ⟨h1, h2⟩
  | cons op rest ih =>
    intro q h hinv hcap
    rw [List.mem_cons] at h
    push_neg at h
    obtain ⟨hop, hrest⟩ := h
    cases op with
    | enq x =>
      cases he : q.enqueue x with
      | error e => simpa [runOps, he] using ih q hrest hinv hcap
      | ok q' =>
        obtain ⟨hq, hmax, _, henq, hdeq, hlt⟩ := enqueue_ok_fields he
        have h1 : q'.queue.length + q'.totalDequeued = q'.totalEnqueued := by
          rw [hq, henq, hdeq]
          simp only [List.length_append, List.length_cons, List.length_nil]
          omega
        have h2 : q'.queue.length ≤ q'.maxSize := by
          rw [hq, hmax]
          simp only [List.length_append, List.length_cons, List.length_nil]
          omega
        simpa [runOps, he] using ih q' hrest h1 h2
    | deq =>
      cases he : q.dequeue with
      | error e => simpa [runOps, he] using ih q hrest hinv hcap
      | ok p =>
        obtain ⟨x, q'⟩ := p
        obtain ⟨hq, hmax, _, henq, hdeq⟩ := dequeue_ok_counters he
        rw [hq] at hinv hcap
        simp only [List.length_cons] at hinv hcap
        have h1 : q'.queue.length + q'.totalDequeued = q'.totalEnqueued := by
          rw [henq, hdeq]
          omega
        have h2 : q'.queue.length ≤ q'.maxSize := by
          rw [hmax]
          omega
        simpa [runOps, he] using ih q' hrest h1 h2
    | peekOp => simpa [runOps] using ih q hrest hinv hcap
    | closeOp =>
      simpa [runOps, InMemoryQueue.close] using
        ih q.close hrest (by simpa [InMemoryQueue.close] using hinv)
          (by simpa [InMemoryQueue.close] using hcap)
    | clearOp => exact absurd rfl hop

/-- C10: for every operation sequence without `clear`, the statistics snapshot
of a queue run from fresh satisfies `current_size = total_enqueued -
total_dequeued` (with `total_dequeued ≤ total_enqueued`) and `current_size ≤
max_size`; the undocumented `clear` empties the buffer without adjusting the
counters, so after clearing a non-empty queue the equation fails. -/
theorem queue_statistics_invariant {T : Type} (N : Nat) (ops : List (QueueOp T))
    (h : QueueOp.clearOp ∉ ops) :
    ((runOps (InMemoryQueue.fresh T N) ops).q.get_statistics).current_size
        = ((runOps (InMemoryQueue.fresh T N) ops).q.get_statistics).total_enqueued
          - ((runOps (InMemoryQueue.fresh T N) ops).q.get_statistics).total_dequeued
      ∧ ((runOps (InMemoryQueue.fresh T N) ops).q.get_statistics).total_dequeued
          ≤ ((runOps (InMemoryQueue.fresh T N) ops).q.get_statistics).total_enqueued
      ∧ ((runOps (InMemoryQueue.fresh T N) ops).q.get_statistics).current_size
          ≤ ((runOps (InMemoryQueue.fresh T N) ops).q.get_statistics).max_size
      ∧ ((runOps (InMemoryQueue.fresh Nat 10) [.enq 5, .clearOp]).q.get_statistics).current_size
          ≠ ((runOps (InMemoryQueue.fresh Nat 10) [.enq 5, .clearOp]).q.get_statistics).total_enqueued
            - ((runOps (InMemoryQueue.fresh Nat 10) [.enq 5, .clearOp]).q.get_statistics).total_dequeued := by
  obtain ⟨h1, h2⟩ := runOps_stats_invariant ops (InMemoryQueue.fresh T N) h rfl (Nat.zero_le N)
  refine ⟨?_, ?_, ?_, ?_⟩
  · simp only [InMemoryQueue.get_statistics]
    omega
  · simp only [InMemoryQueue.get_statistics]
    omega
  · simpa only [InMemoryQueue.get_statistics] using h2
  · decide

/-- Witness for C10: an enqueue followed by a dequeue keeps the counter
identity; the closed theorem also exhibits the broken identity after
`clear`. -/
theorem queue_statistics_invariant_witness :
    ((runOps (InMemoryQueue.fresh Nat 4) [.enq 6, .deq]).q.get_statistics).current_size
        = ((runOps (InMemoryQueue.fresh Nat 4) [.enq 6, .deq]).q.get_statistics).total_enqueued
          - ((runOps (InMemoryQueue.fresh Nat 4) [.enq 6, .deq]).q.get_statistics).total_dequeued
      ∧ ((runOps (InMemoryQueue.fresh Nat 4) [.enq 6, .deq]).q.get_statistics).total_dequeued
          ≤ ((runOps (InMemoryQueue.fresh Nat 4) [.enq 6, .deq]).q.get_statistics).total_enqueued
      ∧ ((runOps (InMemoryQueue.fresh Nat 4) [.enq 6, .deq]).q.get_statistics).current_size
          ≤ ((runOps (InMemoryQueue.fresh Nat 4) [.enq 6, .deq]).q.get_statistics).max_size
      ∧ ((runOps (InMemoryQueue.fresh Nat 10) [.enq 5, .clearOp]).q.get_statistics).current_size
          ≠ ((runOps (InMemoryQueue.fresh Nat 10) [.enq 5, .clearOp]).q.get_statistics).total_enqueued
            - ((runOps (InMemoryQueue.fresh Nat 10) [.enq 5, .clearOp]).q.get_statistics).total_dequeued :=
  queue_statistics_invariant 4 [.enq 6, .deq] (by decide)

/-- C7: `transfer_credits(from, to, amount)` between distinct users either
fails leaving the whole store untouched (when the sender's balance is below
the amount), or in one atomic unit decreases the sender's balance by the
amount and increases the recipient's balance by the amount. -/
theorem transfer_credits_atomicity (s : Store) (f t : Nat) (a : Int) (hft : f ≠ t) :
    (s f < a → transfer_credits s f t a = (false, s))
      ∧ (a ≤ s f →
          (transfer_credits s f t a).1 = true
            ∧ (transfer_credits s f t a).2 f = s f - a
            ∧ (transfer_credits s f t a).2 t = s t + a) := by
  constructor
  · intro hlt
    simp [transfer_credits, hlt]
  · intro hge
    have hnlt : ¬ s f < a := not_lt.mpr hge
    refine ⟨by simp [transfer_credits, hnlt], ?_, ?_⟩
    · simp [transfer_credits, hnlt, incrby, decrby, hft]
    · simp [transfer_credits, hnlt, incrby, decrby, Ne.symm hft]

/-- Witness for C7: transferring 4 from user 0 (balance 10) to user 1
(balance 10). -/
theorem transfer_credits_atomicity_witness :
    (((fun _ => 10 : Store) 0) < 4 →
        transfer_credits (fun _ => 10) 0 1 4 = (false, fun _ => 10))
      ∧ ((4 : Int) ≤ ((fun _ => 10 : Store) 0) →
          (transfer_credits (fun _ => 10) 0 1 4).1 = true
            ∧ (transfer_credits (fun _ => 10) 0 1 4).2 0 = (fun _ => 10 : Store) 0 - 4
            ∧ (transfer_credits (fun _ => 10) 0 1 4).2 1 = (fun _ => 10 : Store) 1 + 4) :=
  transfer_credits_atomicity (fun _ => 10) 0 1 4 (by decide)

/-- Redis `TTL key` semantics for a key always written with an expiry: `-2`
when the key is absent or already expired, otherwise the remaining seconds.
This embeds the backing-store behaviour that `can_claim` reads. -/
def redisTtl (now : Int) (expireAt : Option Int) : Int :=
  match expireAt with
  | none => -2
  | some e => if e ≤ now then -2 else e - now

/-- `CreditSystem.can_claim` (`src/credit_system.py` lines 129-140): read the
TTL of the `last_claim` key; the user can claim when `ttl <= 0`, and the
reported remaining time is `max(0, ttl)`. -/
def can_claim (now : Int) (expireAt : Option Int) : Bool × Int :=
  (decide (redisTtl now expireAt ≤ 0), max 0 (redisTtl now expireAt))

/-- `CreditSystem.set_last_claim` (lines 142-151): `SET key "1" ex=86400`,
an unconditional overwrite whose expiry is 24 hours from now, independent of
any previous marker. -/
def set_last_claim (now : Int) (_prev : Option Int) : Option Int :=
  some (now + 86400)

/-- C8: a fresh user can claim; immediately after `set_last_claim` the user
cannot claim and the remaining time lies in `(0, 86400]` (this holds at every
elapsed `d < 86400` seconds); the new marker is `now + 86400` regardless of
the previous marker; once 86400 seconds have elapsed the user can claim
again. -/
theorem claim_cooldown_window (now : Int) (prev : Option Int) (d e : Int)
    (hd : 0 ≤ d) (hd2 : d < 86400) (he : 86400 ≤ e) :
    can_claim now none = (true, 0)
      ∧ set_last_claim now prev = some (now + 86400)
      ∧ can_claim (now + d) (set_last_claim now prev) = (false, 86400 - d)
      ∧ 0 < 86400 - d ∧ 86400 - d ≤ 86400
      ∧ can_claim (now + e) (set_last_claim now prev) = (true, 0) := by
  have hc : ¬ (now + 86400 ≤ now + d) := by omega
  have h1 : redisTtl (now + d) (some (now + 86400)) = 86400 - d := by
    simp only [redisTtl, if_neg hc]
    ring
  refine ⟨by simp [can_claim, redisTtl], rfl, ?_, by omega, by omega, ?_⟩
  · simp only [can_claim, set_last_claim, h1, Prod.mk.injEq]
    refine ⟨?_, ?_⟩
    · simp only [decide_eq_false_iff_not, not_le]
      omega
    · rw [max_eq_right (by omega : (0 : Int) ≤ 86400 - d)]
  · have hc2 : now + 86400 ≤ now + e := by omega
    simp [can_claim, set_last_claim, redisTtl, hc2]

/-- Witness for C8 at `now = 0`, no previous marker, elapsed 0 and 86400
seconds. -/
theorem claim_cooldown_window_witness :
    can_claim 0 none = (true, 0)
      ∧ set_last_claim 0 none = some (0 + 86400)
      ∧ can_claim (0 + 0) (set_last_claim 0 none) = (false, 86400 - 0)
      ∧ (0 : Int) < 86400 - 0 ∧ (86400 : Int) - 0 ≤ 86400
      ∧ can_claim (0 + 86400) (set_last_claim 0 none) = (true, 0) :=
  claim_cooldown_window 0 none 0 86400 (by decide) (by decide) (by decide)

/-- C9: `deduct_credit` performs no validation of its amount: whenever the
balance is at least the amount — including amount `0` or a negative amount —
the deduction succeeds and the new balance is `balance - amount`; deducting
`0` at balance `0` succeeds, and a negative amount strictly increases the
balance through the deduct operation. -/
theorem deduct_credit_no_amount_validation (s : Store) (u : Nat) (a : Int)
    (hge : a ≤ s u) :
    deduct_credit s u a = (true, decrby s u a)
      ∧ (deduct_credit s u a).2 u = s u - a
      ∧ (deduct_credit (fun _ => 0) 0 0).1 = true
      ∧ (a < 0 → s u < (deduct_credit s u a).2 u) := by
  have hnlt : ¬ s u < a := not_lt.mpr hge
  refine ⟨by simp [deduct_credit, hnlt], by simp [deduct_credit, hnlt, decrby], by decide, ?_⟩
  intro hneg
  simp [deduct_credit, hnlt, decrby]
  omega

/-- Witness for C9: balance 2, amount `-3`; the deduction succeeds and the
balance rises to 5. -/
theorem deduct_credit_no_amount_validation_witness :
    deduct_credit (fun _ => 2) 0 (-3) = (true, decrby (fun _ => 2) 0 (-3))
      ∧ (deduct_credit (fun _ => 2) 0 (-3)).2 0 = (fun _ => 2 : Store) 0 - (-3)
      ∧ (deduct_credit (fun _ => 0) 0 0).1 = true
      ∧ ((-3 : Int) < 0 → (fun _ => 2 : Store) 0 < (deduct_credit (fun _ => 2) 0 (-3)).2 0) :=
  deduct_credit_no_amount_validation (fun _ => 2) 0 (-3) (by decide)

/-- Retry bound of `CreditSystem._execute_redis_operation`
(`src/credit_system.py` line 71): `max_retries, retry_delay = 3, 0.1`. -/
def maxRetries : Nat := 3

/-- The retry loop of `_execute_redis_operation` with `remaining` attempts
left, the current attempt numbered `attempt`.  `op attempt = none` models a
`redis.RedisError` on that attempt.  Returns the outcome together with the
backoff delays slept, in tenths of a second (`retry_delay * 2 ** attempt`
seconds in the source is `2 ^ attempt` tenths); on the last failed attempt
the error is raised without sleeping. -/
def executeAttempts (op : Nat → Option α) : Nat → Nat → Except Unit α × List Nat
  | _, 0 => (.error (), [])
  | attempt, remaining + 1 =>
    match op attempt with
    | some v => (.ok v, [])
    | none =>
      if remaining = 0 then (.error (), [])
      else
        let r := executeAttempts op (attempt + 1) remaining
        (r.1, 2 ^ attempt :: r.2)

/-- Unfolding equation for one attempt of the retry loop. -/
theorem executeAttempts_succ (op : Nat → Option α) (attempt n : Nat) :
    executeAttempts op attempt (n + 1) =
      match op attempt with
      | some v => (.ok v, [])
      | none =>
        if n = 0 then (.error (), [])
        else
          let r := executeAttempts op (attempt + 1) n
          (r.1, 2 ^ attempt :: r.2) := rfl

/-- `CreditSystem._execute_redis_operation` (lines 69-79): run the attempt
loop for `max_retries` attempts starting at attempt 0; when every attempt
fails, the `CreditSystemError` is raised (`.error`). -/
def execute_redis_operation (op : Nat → Option α) : Except Unit α × List Nat :=
  executeAttempts op 0 maxRetries

/-- `CreditSystem.get_credits` (lines 117-127) in full, including its failure
path: the Redis `GET` goes through the retry wrapper; on success an absent
key reads as balance 0; on an exception the handler logs and returns 0. -/
def get_credits_with_retry (op : Nat → Option (Option Int)) : Int :=
  match (execute_redis_operation op).1 with
  | .ok v => v.getD 0
  | .error _ => 0

/-- C3 counterexample: against a store that fails on every attempt, the retry
wrapper does raise after its 3 attempts, but `get_credits` swallows that
failure and returns 0 — exactly the value it returns for a genuine zero
balance — so the caller is handed "balance is zero" in place of the
failure, contradicting the claim. -/
theorem get_credits_unavailable_returns_zero :
    (execute_redis_operation (fun _ => (none : Option (Option Int)))).1 = .error ()
      ∧ get_credits_with_retry (fun _ => none) = 0
      ∧ get_credits_with_retry (fun _ => some (some 0)) = 0 :=
  ⟨rfl, rfl, rfl⟩

/-- C3 as amended: for the ledger operations routed through
`_execute_redis_operation` — the `GET` of `get_credits` among them — a
transient store failure is retried up to 3 total attempts with exponential
backoff (sleeping `0.1 * 2 ^ attempt` seconds after each failed non-final
attempt, i.e. 0.1 s then 0.2 s), an operation that recovers on the second
attempt returns its value after one 0.1 s backoff, and once all attempts
fail a `CreditSystemError` is raised.  However `get_credits` catches the
raised error and returns the default 0 to its caller.  (The pipeline-based
operations `deduct_credit`, `transfer_credits` and `batch_update_credits`
never pass through the wrapper, so no retry claim is made for them.) -/
theorem execute_redis_retry_behavior (op op2 : Nat → Option (Option Int))
    (v : Option Int) (hfail : ∀ n, op n = none)
    (h0 : op2 0 = none) (h1 : op2 1 = some v) :
    execute_redis_operation op = (.error (), [1, 2])
      ∧ get_credits_with_retry op = 0
      ∧ execute_redis_operation op2 = (.ok v, [1]) := by
  have hop : op = fun _ => none := funext hfail
  subst hop
  refine ⟨rfl, rfl, ?_⟩
  show executeAttempts op2 0 maxRetries = (.ok v, [1])
  rw [show maxRetries = 2 + 1 from rfl, executeAttempts_succ, h0]
  simp only [if_neg (by decide : ¬ (2 : Nat) = 0)]
  rw [show (2 : Nat) = 1 + 1 from rfl, executeAttempts_succ, h1]
  simp

/-- Witness for C3 (amended): a store failing on all attempts, and one that
fails once then returns the value `some 7`. -/
theorem execute_redis_retry_behavior_witness :
    execute_redis_operation (fun _ => (none : Option (Option Int))) = (.error (), [1, 2])
      ∧ get_credits_with_retry (fun _ => none) = 0
      ∧ execute_redis_operation
          (fun n => if n = 0 then (none : Option (Option Int)) else some (some 7))
          = (.ok (some 7), [1]) :=
  execute_redis_retry_behavior (fun _ => none)
    (fun n => if n = 0 then none else some (some 7)) (some 7)
    (fun _ => rfl) rfl rfl

/-- Outcome of one `/dream` invocation as seen by the user. -/
inductive GenOutcome where
  | insufficientCredits
  | deductFailed
  | queued
  | queueFullRejected
deriving DecidableEq, Repr

/-- Combined state touched by `generate_product`: the credit store and the
image-generation queue, whose items carry `interaction_id` and `prompt`. -/
structure GenState where
  store : Store
  imageQueue : InMemoryQueue (Nat × String)

/-- `ImageProductCommand.generate_product`
(`src/cogs/image_product_command.py` lines 113-195), backing store
reachable: reject when `get_credits(user) < 1`; otherwise call
`deduct_credit(user, 1)` and reject on failure; only then enqueue
`{interaction_id, prompt}` on the image-generation queue, answering
"currently processing too many requests" when `QueueFullError` is raised.
The `QueueFullError` handler performs no refund of the deducted credit. -/
def generate_product (st : GenState) (u : Nat) (interactionId : Nat)
    (prompt : String) : GenOutcome × GenState :=
  if get_credits st.store u < 1 then (.insufficientCredits, st)
  else
    let d := deduct_credit st.store u 1
    if d.1 = false then (.deductFailed, { st with store := d.2 })
    else
      match st.imageQueue.enqueue (interactionId, prompt) with
      | .ok q' => (.queued, { store := d.2, imageQueue := q' })
      | .error _ => (.queueFullRejected, { st with store := d.2 })

/-- C2 fails on the code: with the image-generation queue at its capacity of
50 (a state reachable by 50 successful enqueues) and a user holding 5
credits, the 51st generation attempt is rejected with the "too many
requests" outcome, yet the user's balance afterwards is 4, not the 5 it held
before: the credit is deducted before the enqueue and never refunded. -/
theorem generate_product_queue_full_debits :
    enqueueAll (InMemoryQueue.fresh (Nat × String) 50)
        (List.replicate 50 (0, "x")) =
      .ok ⟨List.replicate 50 (0, "x"), 50, false, 50, 0⟩
      ∧ (generate_product
            ⟨fun _ => 5, ⟨List.replicate 50 (0, "x"), 50, false, 50, 0⟩⟩ 7 1 "p").1
          = .queueFullRejected
      ∧ (generate_product
            ⟨fun _ => 5, ⟨List.replicate 50 (0, "x"), 50, false, 50, 0⟩⟩ 7 1 "p").2.store 7
          = 4
      ∧ (generate_product
            ⟨fun _ => 5, ⟨List.replicate 50 (0, "x"), 50, false, 50, 0⟩⟩ 7 1 "p").2.store 7
          ≠ (5 : Int) := by
  refine ⟨?_, rfl, by decide, by decide⟩
  rw [enqueueAll_ok (List.replicate 50 (0, "x")) (InMemoryQueue.fresh (Nat × String) 50)
    rfl (by simp [InMemoryQueue.fresh])]
  simp [InMemoryQueue.fresh]

end DreamBee
